import Mathlib

/-!
# Resol BS2 VBus parser: the manual decoder of `src/decode.js`

A shallow embedding of the helper functions of `decode.js` and of the part of the
script that decodes a payload byte array by hand.

JavaScript numbers that occur here are integers, modelled by `Int`; an array read
past the end gives `undefined`.  The bitwise operators `<<`, `|`, `&` first convert
their operands with `ToInt32` and deliver a signed 32-bit result; they are modelled
on the 32-bit pattern (`toUint32`, a `Nat` below `2^32`) and reinterpreted as signed
by `toInt32`.  `BigInt` values that occur are non-negative and modelled by `Nat`.
Divisions by `10.0` and `100.0` are taken in `ℚ`.

The payload `bytes` comes from a `Buffer`, so its entries are bytes; it is a `List Nat`, and
the theorems state the bound `< 256` where they need it.  A string is its list of
characters; a character outside the Basic Multilingual Plane is two code units in
JavaScript, neither of them a hexadecimal digit, and the scan of `hexToBuffer` passes over
them as it passes over the single character here.
-/

namespace VBus

/-- A JavaScript value as the decoder meets it: `undefined` (an array read past the
end) or an integral number. -/
inductive JsVal where
  | undefined : JsVal
  | num : Int → JsVal
  deriving DecidableEq, Repr

/-- The 32-bit pattern of an integer: `x` modulo `2^32`. -/
def toUint32 (x : Int) : Nat := (x % 4294967296).toNat

/-- The signed reading of the 32-bit pattern of `x`. -/
def toInt32 (x : Int) : Int :=
  if toUint32 x < 2147483648 then (toUint32 x : Int) else (toUint32 x : Int) - 4294967296

/-- The conversion `ToInt32` of a value: `undefined` becomes `NaN`, which converts to `0`. -/
def JsVal.toInt32 : JsVal → Int
  | .undefined => 0
  | .num n => VBus.toInt32 n

/-- The operator `a << k` on numbers, `k` a literal shift count. -/
def shl (a : Int) (k : Nat) : Int :=
  toInt32 ((toUint32 a <<< (k % 32) : Nat) : Int)

/-- The operator `a | b` on numbers. -/
def bor (a b : Int) : Int :=
  toInt32 ((toUint32 a ||| toUint32 b : Nat) : Int)

/-- The operator `a & b` on numbers. -/
def band (a b : Int) : Int :=
  toInt32 ((toUint32 a &&& toUint32 b : Nat) : Int)

/-- Source: `decodeInt16LE(lo, hi)`. -/
def decodeInt16LE (lo hi : JsVal) : Int :=
  let val := bor (shl hi.toInt32 8) lo.toInt32
  if band val 0x8000 ≠ 0 then val - 0x10000 else val

/-- Source: `decodeUInt16LE(lo, hi)`. -/
def decodeUInt16LE (lo hi : JsVal) : Int :=
  bor (shl hi.toInt32 8) lo.toInt32

/-- Source: `decodeUInt32LE(b0, b1, b2, b3)`. -/
def decodeUInt32LE (b0 b1 b2 b3 : JsVal) : Int :=
  bor (bor (bor (shl b3.toInt32 24) (shl b2.toInt32 16)) (shl b1.toInt32 8)) b0.toInt32

/-- An exception thrown by the script: `BigInt(undefined)` raises a `TypeError`. -/
inductive JsError where
  | typeError : JsError
  deriving DecidableEq, Repr

/-- The call `BigInt(b)`: the integer itself, a `TypeError` on `undefined`. -/
def toBigInt : JsVal → Except JsError Int
  | .undefined => .error .typeError
  | .num n => .ok n

/-- Source: `decodeUInt48LE(b0, b1, b2, b3, b4, b5)`.  On `BigInt`s `x << kn` is
`x * 2^k` and `|` is the bitwise or of unbounded two's-complement integers. -/
def decodeUInt48LE (b0 b1 b2 b3 b4 b5 : JsVal) : Except JsError Int := do
  let x5 ← toBigInt b5
  let x4 ← toBigInt b4
  let x3 ← toBigInt b3
  let x2 ← toBigInt b2
  let x1 ← toBigInt b1
  let x0 ← toBigInt b0
  pure (Int.lor (Int.lor (Int.lor (Int.lor (Int.lor (x5 * 2 ^ 40) (x4 * 2 ^ 32)) (x3 * 2 ^ 24))
    (x2 * 2 ^ 16)) (x1 * 2 ^ 8)) x0)

/-- Rounding of a natural number to the nearest one with at most 53 significant bits,
ties to the even significand: the magnitude of `Number(x)` for a `BigInt` `x`
(magnitudes that overflow a double are not met here). -/
def roundTo53 (n : Nat) : Nat :=
  if n < 2 ^ 53 then n
  else
    let e := Nat.log2 n - 52
    let q := n / 2 ^ e
    let r := n % 2 ^ e
    let half := 2 ^ (e - 1)
    if r > half ∨ (r = half ∧ q % 2 = 1) then (q + 1) * 2 ^ e else q * 2 ^ e

/-- The call `Number(x)` on a `BigInt`. -/
def bigIntToNumber (x : Int) : Int :=
  if 0 ≤ x then (roundTo53 x.toNat : Int) else -(roundTo53 x.natAbs : Int)

/-- Source: `checkBit(byte, bit)`. -/
def checkBit (byte bit : JsVal) : Int :=
  if band byte.toInt32 bit.toInt32 ≠ 0 then 1 else 0

/-- Array read `bytes[i]`: `undefined` at or beyond the end. -/
def idx (bytes : List Nat) (i : Nat) : JsVal :=
  match bytes[i]? with
  | some b => .num (b : Int)
  | none => .undefined

/-- The hexadecimal digits, the class `[\da-f]` under the flag `i`. -/
def isHexDigit (c : Char) : Bool :=
  ('0' ≤ c && c ≤ '9') || ('a' ≤ c && c ≤ 'f') || ('A' ≤ c && c ≤ 'F')

/-- The value of a hexadecimal digit (`0` for any other character). -/
def hexVal (c : Char) : Nat :=
  if '0' ≤ c && c ≤ '9' then c.toNat - 48
  else if 'a' ≤ c && c ≤ 'f' then c.toNat - 87
  else if 'A' ≤ c && c ≤ 'F' then c.toNat - 55
  else 0

/-- The matches of `hex.match(/[\da-f]{2}/gi) || []`: scanning from the left, two adjacent
hexadecimal digits form a match and the scan resumes after them; otherwise it moves on
by one character. -/
def matchPairs : List Char → List (List Char)
  | [] => []
  | [_] => []
  | c :: d :: rest =>
    if isHexDigit c && isHexDigit d then [c, d] :: matchPairs rest else matchPairs (d :: rest)

/-- The call `parseInt(b, 16)` on a string of hexadecimal digits. -/
def parseIntHex (b : List Char) : Nat :=
  b.foldl (fun acc c => 16 * acc + hexVal c) 0

/-- Source: `hexToBuffer(hex)`; `Buffer.from` keeps each number modulo 256. -/
def hexToBuffer (hex : String) : List Nat :=
  (matchPairs hex.data).map (fun b => parseIntHex b % 256)

/-- What the manual decoding of the script computes from the payload `bytes`. -/
structure Manual where
  tempSensor1 : ℚ
  tempSensor2 : ℚ
  tempSensor3 : ℚ
  tempSensor4 : ℚ
  sensor1Defective : Int
  sensor2Defective : Int
  sensor3Defective : Int
  sensor4Defective : Int
  emergencyStoreTemp : Int
  collectorEmergencyTemp : Int
  r1ManualMode : Int
  r2ManualMode : Int
  operatingHoursRelay1 : Int
  operatingHoursRelay2 : Int
  heatQuantity48 : Int
  heatQuantity32 : Int
  heatQuantity : Int
  warning : Bool
  versionRaw : Int
  version : ℚ

/-- Source: `tempSensor1 = decodeInt16LE(bytes[0], bytes[1]) / 10.0`. -/
def tempSensor1 (bytes : List Nat) : ℚ :=
  (decodeInt16LE (idx bytes 0) (idx bytes 1) : ℚ) / 10

/-- Source: the heat quantity selection, `let heatQuantity = heatQuantity32; if ...`. -/
def heatQuantity (bytes : List Nat) : Int :=
  let heatQuantity32 := decodeUInt32LE (idx bytes 16) (idx bytes 17) (idx bytes 18) (idx bytes 19)
  if heatQuantity32 = 255000000 then heatQuantity32
  else
    let alt32 := decodeUInt32LE (idx bytes 18) (idx bytes 19) (idx bytes 20) (idx bytes 21)
    if alt32 = 255000000 then alt32 else 255000000

/-- Source: the guard `heatQuantity !== 255000000` of the warning branch. -/
def warningReached (bytes : List Nat) : Bool :=
  decide (heatQuantity bytes ≠ 255000000)

/-- Source: `versionRaw = decodeUInt16LE(bytes[24], bytes[25])`. -/
def versionRaw (bytes : List Nat) : Int :=
  decodeUInt16LE (idx bytes 24) (idx bytes 25)

/-- Source: `version = versionRaw / 100.0`. -/
def version (bytes : List Nat) : ℚ :=
  (versionRaw bytes : ℚ) / 100

/-- The manual decoding of the script, in statement order; it stops with the `TypeError`
of `decodeUInt48LE` when one of the bytes 16..21 is missing. -/
def manualDecode (bytes : List Nat) : Except JsError Manual := do
  let t1 := tempSensor1 bytes
  let t2 : ℚ := (decodeInt16LE (idx bytes 2) (idx bytes 3) : ℚ) / 10
  let t3 : ℚ := (decodeInt16LE (idx bytes 4) (idx bytes 5) : ℚ) / 10
  let t4 : ℚ := (decodeInt16LE (idx bytes 6) (idx bytes 7) : ℚ) / 10
  let statusByte := idx bytes 10
  let manualModeByte := idx bytes 11
  let h48 ← decodeUInt48LE (idx bytes 16) (idx bytes 17) (idx bytes 18) (idx bytes 19)
    (idx bytes 20) (idx bytes 21)
  pure {
    tempSensor1 := t1
    tempSensor2 := t2
    tempSensor3 := t3
    tempSensor4 := t4
    sensor1Defective := checkBit statusByte (.num 0x01)
    sensor2Defective := checkBit statusByte (.num 0x02)
    sensor3Defective := checkBit statusByte (.num 0x04)
    sensor4Defective := checkBit statusByte (.num 0x08)
    emergencyStoreTemp := checkBit statusByte (.num 0x10)
    collectorEmergencyTemp := checkBit statusByte (.num 0x20)
    r1ManualMode := checkBit manualModeByte (.num 0x01)
    r2ManualMode := checkBit manualModeByte (.num 0x02)
    operatingHoursRelay1 := decodeUInt16LE (idx bytes 12) (idx bytes 13)
    operatingHoursRelay2 := decodeUInt16LE (idx bytes 14) (idx bytes 15)
    heatQuantity48 := bigIntToNumber h48
    heatQuantity32 := decodeUInt32LE (idx bytes 16) (idx bytes 17) (idx bytes 18) (idx bytes 19)
    heatQuantity := heatQuantity bytes
    warning := warningReached bytes
    versionRaw := versionRaw bytes
    version := version bytes }

/-- The digit character of a value below 16, in upper or lower case. -/
def hexDigit (upper : Bool) (v : Nat) : Char :=
  if v < 10 then Char.ofNat (48 + v)
  else if upper then Char.ofNat (55 + v) else Char.ofNat (87 + v)

/-- Two-digit hexadecimal encoding of a byte sequence. -/
def hexEncode (upper : Bool) (bs : List Nat) : String :=
  ⟨bs.flatMap (fun b => [hexDigit upper (b / 16), hexDigit upper (b % 16)])⟩

/-- The 24 payload bytes of the sample frame. -/
def samplePayload : List Nat :=
  [0x7F, 0x0B, 0x00, 0x07, 0x1A, 0x38, 0x22, 0x38, 0x22, 0x05, 0x46, 0x00,
   0x00, 0x00, 0x00, 0x00, 0x7F, 0x5F, 0x14, 0x00, 0x00, 0x01, 0x0B, 0x00]

/-! ## Auxiliary lemmas -/

theorem toUint32_lt (x : Int) : toUint32 x < 4294967296 := by
  unfold toUint32; omega

theorem toUint32_natCast (n : Nat) : toUint32 (n : Int) = n % 4294967296 := by
  unfold toUint32; omega

theorem toUint32_toInt32 (x : Int) : toUint32 (toInt32 x) = toUint32 x := by
  unfold toInt32
  have h := toUint32_lt x
  split
  · rw [toUint32_natCast]; omega
  · generalize toUint32 x = u at *
    unfold toUint32; omega

theorem toInt32_natCast (n : Nat) :
    toInt32 (n : Int) =
      if n % 4294967296 < 2147483648 then ((n % 4294967296 : Nat) : Int)
      else ((n % 4294967296 : Nat) : Int) - 4294967296 := by
  unfold toInt32; rw [toUint32_natCast]

theorem lor_eq_add (i a b : Nat) (hb : b < 2 ^ i) (ha : 2 ^ i ∣ a) : a ||| b = a + b := by
  obtain ⟨c, rfl⟩ := ha
  exact (Nat.mul_add_lt_is_or hb c).symm

theorem toUint32_shl (a : Int) (k : Nat) :
    toUint32 (shl a k) = (toUint32 a <<< (k % 32)) % 4294967296 := by
  unfold shl; rw [toUint32_toInt32, toUint32_natCast]

theorem toUint32_bor (a b : Int) : toUint32 (bor a b) = toUint32 a ||| toUint32 b := by
  unfold bor; rw [toUint32_toInt32, toUint32_natCast]
  apply Nat.mod_eq_of_lt
  exact Nat.or_lt_two_pow (n := 32) (toUint32_lt a) (toUint32_lt b)

theorem toUint32_band (a b : Int) : toUint32 (band a b) = toUint32 a &&& toUint32 b := by
  unfold band; rw [toUint32_toInt32, toUint32_natCast]
  apply Nat.mod_eq_of_lt
  exact Nat.lt_of_le_of_lt Nat.and_le_left (toUint32_lt a)

theorem toUint32_num (n : Nat) (h : n < 4294967296) :
    toUint32 (JsVal.num (n : Int)).toInt32 = n := by
  show toUint32 (toInt32 (n : Int)) = n
  rw [toUint32_toInt32, toUint32_natCast]; omega

/-- The 32-bit pattern assembled by `(hi << 8) | lo` from two bytes. -/
theorem pattern16 (lo hi : Nat) (hlo : lo < 256) (hhi : hi < 256) :
    toUint32 (bor (shl (JsVal.num (hi : Int)).toInt32 8) (JsVal.num (lo : Int)).toInt32)
      = hi * 256 + lo := by
  rw [toUint32_bor, toUint32_shl, toUint32_num _ (by omega), toUint32_num _ (by omega),
    Nat.shiftLeft_eq]
  have h1 : hi * 2 ^ (8 % 32) % 4294967296 = hi * 256 := by norm_num; omega
  rw [h1]
  exact lor_eq_add 8 _ _ (by norm_num; omega) (by norm_num)

theorem toInt32_of_pattern (x : Int) (n : Nat) (h : toUint32 x = n) (hx : toInt32 x = x) :
    x = if n < 2147483648 then (n : Int) else (n : Int) - 4294967296 := by
  rw [← hx]; unfold toInt32; rw [h]

theorem toInt32_idem (x : Int) : toInt32 (toInt32 x) = toInt32 x := by
  have h : toUint32 (toInt32 x) = toUint32 x := toUint32_toInt32 x
  rw [toInt32.eq_1 (toInt32 x), h, ← toInt32.eq_1]

theorem bor_val (a b : Int) (n : Nat) (h : toUint32 (bor a b) = n) :
    bor a b = if n < 2147483648 then (n : Int) else (n : Int) - 4294967296 :=
  toInt32_of_pattern _ n h (by unfold bor; rw [toInt32_idem])

theorem decodeUInt16LE_bytes (lo hi : Nat) (hlo : lo < 256) (hhi : hi < 256) :
    decodeUInt16LE (.num lo) (.num hi) = (hi : Int) * 256 + lo := by
  unfold decodeUInt16LE
  rw [bor_val _ _ _ (pattern16 lo hi hlo hhi)]
  split <;> omega

/-- The 32-bit pattern assembled by `(b3 << 24) | (b2 << 16) | (b1 << 8) | b0`. -/
theorem pattern32 (b0 b1 b2 b3 : Nat) (h0 : b0 < 256) (h1 : b1 < 256) (h2 : b2 < 256)
    (h3 : b3 < 256) :
    toUint32 (bor (bor (bor (shl (JsVal.num (b3 : Int)).toInt32 24)
        (shl (JsVal.num (b2 : Int)).toInt32 16)) (shl (JsVal.num (b1 : Int)).toInt32 8))
        (JsVal.num (b0 : Int)).toInt32)
      = b0 + 256 * b1 + 65536 * b2 + 16777216 * b3 := by
  rw [toUint32_bor, toUint32_bor, toUint32_bor, toUint32_shl, toUint32_shl, toUint32_shl,
    toUint32_num _ (by omega), toUint32_num _ (by omega), toUint32_num _ (by omega),
    toUint32_num _ (by omega), Nat.shiftLeft_eq, Nat.shiftLeft_eq, Nat.shiftLeft_eq]
  have e3 : b3 * 2 ^ (24 % 32) % 4294967296 = b3 * 16777216 := by norm_num; omega
  have e2 : b2 * 2 ^ (16 % 32) % 4294967296 = b2 * 65536 := by norm_num; omega
  have e1 : b1 * 2 ^ (8 % 32) % 4294967296 = b1 * 256 := by norm_num; omega
  rw [e3, e2, e1]
  rw [lor_eq_add 24 (b3 * 16777216) (b2 * 65536) (by norm_num; omega) (by norm_num),
    lor_eq_add 16 (b3 * 16777216 + b2 * 65536) (b1 * 256) (by norm_num; omega)
      (by norm_num; omega),
    lor_eq_add 8 (b3 * 16777216 + b2 * 65536 + b1 * 256) b0 (by norm_num; omega)
      (by norm_num; omega)]
  omega

theorem decodeUInt32LE_bytes (b0 b1 b2 b3 : Nat) (h0 : b0 < 256) (h1 : b1 < 256)
    (h2 : b2 < 256) (h3 : b3 < 256) :
    decodeUInt32LE (.num b0) (.num b1) (.num b2) (.num b3) =
      if b3 < 128 then (b0 : Int) + 256 * b1 + 65536 * b2 + 16777216 * b3
      else (b0 : Int) + 256 * b1 + 65536 * b2 + 16777216 * b3 - 4294967296 := by
  unfold decodeUInt32LE
  rw [bor_val _ _ _ (pattern32 b0 b1 b2 b3 h0 h1 h2 h3)]
  split <;> split <;> omega

theorem and_two_pow_ne_zero (n k : Nat) : n &&& 2 ^ k ≠ 0 ↔ n / 2 ^ k % 2 = 1 := by
  rw [Nat.and_two_pow, Nat.testBit_to_div_mod]
  have hp : 0 < 2 ^ k := Nat.two_pow_pos k
  by_cases h : n / 2 ^ k % 2 = 1
  · simp [h]
  · simp [h]

theorem band_two_pow_ne_zero (x : Int) (n k : Nat) (h : toUint32 x = n) (hk : k < 31) :
    band x ((2 ^ k : Nat) : Int) ≠ 0 ↔ n / 2 ^ k % 2 = 1 := by
  have hlt : 2 ^ k < 2 ^ 31 := Nat.pow_lt_pow_right (by decide) hk
  rw [← and_two_pow_ne_zero]
  have hle : n &&& 2 ^ k ≤ 2 ^ k := Nat.and_le_right
  generalize 2 ^ k = m at *
  have hu : toUint32 ((m : Nat) : Int) = m := by
    rw [toUint32_natCast]; omega
  have hb : toUint32 (band x (m : Int)) = n &&& m := by
    rw [toUint32_band, h, hu]
  have hv : band x (m : Int) = ((n &&& m : Nat) : Int) := by
    have := toInt32_of_pattern (band x (m : Int)) _ hb
      (by unfold band; rw [toInt32_idem])
    rw [this]; split <;> omega
  rw [hv]; omega

theorem decodeInt16LE_bytes (lo hi : Nat) (hlo : lo < 256) (hhi : hi < 256) :
    decodeInt16LE (.num lo) (.num hi) =
      if hi * 256 + lo < 32768 then (hi : Int) * 256 + lo else (hi : Int) * 256 + lo - 65536 := by
  unfold decodeInt16LE
  have hp := pattern16 lo hi hlo hhi
  have hs := band_two_pow_ne_zero _ _ 15 hp (by decide)
  have hc : (((2 ^ 15 : Nat) : Int)) = 0x8000 := by norm_num
  rw [hc] at hs
  have hv := bor_val _ _ _ hp
  simp only []
  by_cases h : hi * 256 + lo < 32768
  · rw [if_neg (by rw [hs]; omega), if_pos h, hv]; split <;> omega
  · rw [if_pos (by rw [hs]; omega), if_neg h, hv]; split <;> omega

theorem int_lor_natCast (a b : Nat) : Int.lor (a : Int) (b : Int) = ((a ||| b : Nat) : Int) := rfl

theorem decodeUInt48LE_bytes (b0 b1 b2 b3 b4 b5 : Nat) (h0 : b0 < 256) (h1 : b1 < 256)
    (h2 : b2 < 256) (h3 : b3 < 256) (h4 : b4 < 256) :
    decodeUInt48LE (.num b0) (.num b1) (.num b2) (.num b3) (.num b4) (.num b5) =
      .ok ((b0 + 256 * b1 + 65536 * b2 + 16777216 * b3 + 4294967296 * b4
        + 1099511627776 * b5 : Nat) : Int) := by
  have e5 : (b5 : Int) * 2 ^ 40 = ((b5 * 1099511627776 : Nat) : Int) := by push_cast; norm_num
  have e4 : (b4 : Int) * 2 ^ 32 = ((b4 * 4294967296 : Nat) : Int) := by push_cast; norm_num
  have e3 : (b3 : Int) * 2 ^ 24 = ((b3 * 16777216 : Nat) : Int) := by push_cast; norm_num
  have e2 : (b2 : Int) * 2 ^ 16 = ((b2 * 65536 : Nat) : Int) := by push_cast; norm_num
  have e1 : (b1 : Int) * 2 ^ 8 = ((b1 * 256 : Nat) : Int) := by push_cast; norm_num
  show Except.ok _ = Except.ok _
  rw [e5, e4, e3, e2, e1, int_lor_natCast, int_lor_natCast, int_lor_natCast, int_lor_natCast,
    int_lor_natCast,
    lor_eq_add 40 (b5 * 1099511627776) (b4 * 4294967296) (by norm_num; omega) (by norm_num),
    lor_eq_add 32 (b5 * 1099511627776 + b4 * 4294967296) (b3 * 16777216) (by norm_num; omega)
      (by norm_num; omega),
    lor_eq_add 24 (b5 * 1099511627776 + b4 * 4294967296 + b3 * 16777216) (b2 * 65536)
      (by norm_num; omega) (by norm_num; omega),
    lor_eq_add 16 (b5 * 1099511627776 + b4 * 4294967296 + b3 * 16777216 + b2 * 65536)
      (b1 * 256) (by norm_num; omega) (by norm_num; omega),
    lor_eq_add 8 (b5 * 1099511627776 + b4 * 4294967296 + b3 * 16777216 + b2 * 65536 + b1 * 256)
      b0 (by norm_num; omega) (by norm_num; omega)]
  congr 2
  omega

theorem roundTo53_of_lt (n : Nat) (h : n < 9007199254740992) : roundTo53 n = n := by
  unfold roundTo53
  rw [if_pos (by norm_num; exact h)]

theorem bigIntToNumber_natCast (n : Nat) (h : n < 9007199254740992) :
    bigIntToNumber (n : Int) = n := by
  unfold bigIntToNumber
  rw [if_pos (by omega), Int.toNat_natCast, roundTo53_of_lt n h]

theorem testBit_toUint32 (x : Int) (i : Nat) (hi : i < 32) :
    (toUint32 x).testBit i = x.testBit i := by
  cases x with
  | ofNat m =>
    have h : toUint32 (Int.ofNat m) = m % 2 ^ 32 := by
      rw [show Int.ofNat m = (m : Int) from rfl, toUint32_natCast]; norm_num
    rw [h, Nat.testBit_mod_two_pow]
    simp [Int.testBit, hi]
  | negSucc m =>
    have hlt : m % 2 ^ 32 < 2 ^ 32 := by omega
    have h : toUint32 (Int.negSucc m) = 2 ^ 32 - (m % 2 ^ 32 + 1) := by
      unfold toUint32
      rw [Int.negSucc_eq]
      omega
    rw [h, Nat.testBit_two_pow_sub_succ hlt, Nat.testBit_mod_two_pow]
    simp [Int.testBit, hi]

theorem testBit_byte_lt (byte i : Nat) (hb : byte < 256) (h : byte.testBit i = true) : i < 8 := by
  by_contra hge
  have h8 : 8 ≤ i := by omega
  have hpw : 2 ^ 8 ≤ 2 ^ i := Nat.pow_le_pow_right (by decide) h8
  have : byte < 2 ^ i := by omega
  rw [Nat.testBit_lt_two_pow this] at h
  exact Bool.false_ne_true h

theorem band_byte (byte : Nat) (mask : Int) (hb : byte < 256) :
    band (JsVal.num (byte : Int)).toInt32 (JsVal.num mask).toInt32
      = ((byte &&& toUint32 mask : Nat) : Int) := by
  have hp : toUint32 (band (JsVal.num (byte : Int)).toInt32 (JsVal.num mask).toInt32)
      = byte &&& toUint32 mask := by
    rw [toUint32_band, toUint32_num _ (by omega)]
    show byte &&& toUint32 (toInt32 mask) = _
    rw [toUint32_toInt32]
  have hle : byte &&& toUint32 mask ≤ byte := Nat.and_le_left
  rw [toInt32_of_pattern _ _ hp (by unfold band; rw [toInt32_idem])]
  split <;> omega

theorem checkBit_shared (byte : Nat) (mask : Int) (hb : byte < 256) :
    ((∃ i, byte.testBit i = true ∧ mask.testBit i = true) → checkBit (.num byte) (.num mask) = 1)
    ∧ ((¬ ∃ i, byte.testBit i = true ∧ mask.testBit i = true) →
        checkBit (.num byte) (.num mask) = 0) := by
  unfold checkBit
  rw [band_byte byte mask hb]
  have key : (((byte &&& toUint32 mask : Nat) : Int) ≠ 0) ↔
      ∃ i, byte.testBit i = true ∧ mask.testBit i = true := by
    constructor
    · intro h
      have hne : byte &&& toUint32 mask ≠ 0 := by omega
      obtain ⟨i, hi⟩ := Nat.ne_zero_implies_bit_true hne
      rw [Nat.testBit_and, Bool.and_eq_true] at hi
      refine ⟨i, hi.1, ?_⟩
      rw [← testBit_toUint32 mask i (by have := testBit_byte_lt byte i hb hi.1; omega)]
      exact hi.2
    · rintro ⟨i, h1, h2⟩ h0
      have hz : byte &&& toUint32 mask = 0 := by omega
      have hlt := testBit_byte_lt byte i hb h1
      have : (byte &&& toUint32 mask).testBit i = true := by
        rw [Nat.testBit_and, h1, testBit_toUint32 mask i (by omega), h2]; rfl
      rw [hz] at this
      simp at this
  exact ⟨fun h => if_pos (key.mpr h), fun h => if_neg (fun hh => h (key.mp hh))⟩

theorem checkBit_two_pow (byte k : Nat) (hb : byte < 256) (hk : k < 31) :
    checkBit (.num byte) (.num ((2 ^ k : Nat) : Int)) = ((byte / 2 ^ k % 2 : Nat) : Int) := by
  unfold checkBit
  have hs := band_two_pow_ne_zero (JsVal.num (byte : Int)).toInt32 byte k
    (toUint32_num _ (by omega)) hk
  have hm : (JsVal.num ((2 ^ k : Nat) : Int)).toInt32 = ((2 ^ k : Nat) : Int) := by
    have hlt : 2 ^ k < 2 ^ 31 := Nat.pow_lt_pow_right (by decide) hk
    show toInt32 _ = _
    rw [toInt32_natCast]
    generalize 2 ^ k = m at *
    split <;> omega
  rw [hm]
  by_cases h : byte / 2 ^ k % 2 = 1
  · rw [if_pos (hs.mpr h), h]; rfl
  · rw [if_neg (fun hh => h (hs.mp hh))]; omega

theorem tempSensor1_cons (a b : Nat) (rest : List Nat) :
    tempSensor1 (a :: b :: rest) = ((decodeInt16LE (.num a) (.num b) : Int) : ℚ) / 10 := by
  have h0 : idx (a :: b :: rest) 0 = .num a := by simp [idx]
  have h1 : idx (a :: b :: rest) 1 = .num b := by simp [idx]
  unfold tempSensor1
  rw [h0, h1]

theorem idx_of_lt (bytes : List Nat) (i : Nat) (h : i < bytes.length) :
    idx bytes i = .num ((bytes[i] : Nat) : Int) := by
  unfold idx
  rw [List.getElem?_eq_getElem h]

theorem idx_of_le (bytes : List Nat) (i : Nat) (h : bytes.length ≤ i) :
    idx bytes i = .undefined := by
  unfold idx
  rw [List.getElem?_eq_none h]

theorem decodeUInt48LE_num (a0 a1 a2 a3 a4 a5 : Int) :
    decodeUInt48LE (.num a0) (.num a1) (.num a2) (.num a3) (.num a4) (.num a5) =
      .ok (Int.lor (Int.lor (Int.lor (Int.lor (Int.lor (a5 * 2 ^ 40) (a4 * 2 ^ 32)) (a3 * 2 ^ 24))
        (a2 * 2 ^ 16)) (a1 * 2 ^ 8)) a0) := rfl

theorem versionRaw_short (bytes : List Nat) (h : bytes.length ≤ 24) : versionRaw bytes = 0 := by
  unfold versionRaw
  rw [idx_of_le bytes 24 h, idx_of_le bytes 25 (by omega)]
  rfl

theorem manualDecode_ok (bytes : List Nat) (h : 22 ≤ bytes.length) :
    ∃ r, manualDecode bytes = .ok r ∧ r.versionRaw = versionRaw bytes
      ∧ r.version = version bytes ∧ r.heatQuantity = heatQuantity bytes
      ∧ r.warning = warningReached bytes := by
  unfold manualDecode
  rw [idx_of_lt bytes 16 (by omega), idx_of_lt bytes 17 (by omega), idx_of_lt bytes 18 (by omega),
    idx_of_lt bytes 19 (by omega), idx_of_lt bytes 20 (by omega), idx_of_lt bytes 21 (by omega),
    decodeUInt48LE_num]
  exact ⟨_, rfl, rfl, rfl, rfl, rfl⟩

theorem manualDecode_error (bytes : List Nat) (h : bytes.length < 22) :
    manualDecode bytes = .error .typeError := by
  unfold manualDecode
  rw [idx_of_le bytes 21 (by omega)]
  cases idx bytes 16 <;> cases idx bytes 17 <;> cases idx bytes 18 <;> cases idx bytes 19 <;>
    cases idx bytes 20 <;> rfl

theorem heatQuantity_const (bytes : List Nat) : heatQuantity bytes = 255000000 := by
  unfold heatQuantity
  simp only []
  split
  · assumption
  · split
    · assumption
    · rfl

theorem hexDigit_spec : ∀ (u : Bool) (v : Fin 16),
    isHexDigit (hexDigit u v.val) = true ∧ hexVal (hexDigit u v.val) = v.val := by
  decide

theorem hexVal_lt (c : Char) : hexVal c < 16 := by
  unfold hexVal
  split
  · rename_i h
    simp only [Bool.and_eq_true, decide_eq_true_eq] at h
    have h2 : c.toNat ≤ 57 := h.2
    omega
  · split
    · rename_i h
      simp only [Bool.and_eq_true, decide_eq_true_eq] at h
      have h2 : c.toNat ≤ 102 := h.2
      omega
    · split
      · rename_i h
        simp only [Bool.and_eq_true, decide_eq_true_eq] at h
        have h2 : c.toNat ≤ 70 := h.2
        omega
      · omega

theorem parseIntHex_pair (c d : Char) : parseIntHex [c, d] % 256 = 16 * hexVal c + hexVal d := by
  have hc := hexVal_lt c
  have hd := hexVal_lt d
  show (16 * (16 * 0 + hexVal c) + hexVal d) % 256 = _
  omega

theorem matchPairs_hex (c d : Char) (rest : List Char) (hc : isHexDigit c = true)
    (hd : isHexDigit d = true) : matchPairs (c :: d :: rest) = [c, d] :: matchPairs rest := by
  rw [matchPairs, hc, hd]; rfl

theorem matchPairs_skip (c d : Char) (rest : List Char)
    (h : ¬ (isHexDigit c = true ∧ isHexDigit d = true)) :
    matchPairs (c :: d :: rest) = matchPairs (d :: rest) := by
  rw [matchPairs, if_neg (by simpa using h)]

/-- The bytes of a list of characters read as `hexToBuffer` reads a string. -/
theorem hexToBuffer_mk (cs : List Char) :
    hexToBuffer ⟨cs⟩ = (matchPairs cs).map (fun b => parseIntHex b % 256) := rfl

theorem hexToBuffer_digits (n : Nat) : ∀ cs : List Char, cs.length = 2 * n →
    (∀ c ∈ cs, isHexDigit c = true) →
    ((matchPairs cs).map (fun b => parseIntHex b % 256)).length = n ∧
    ∀ i c d, cs[2 * i]? = some c → cs[2 * i + 1]? = some d →
      ((matchPairs cs).map (fun b => parseIntHex b % 256))[i]? = some (16 * hexVal c + hexVal d) := by
  induction n with
  | zero =>
    intro cs hlen _
    have : cs = [] := List.length_eq_zero.mp (by omega)
    subst this
    exact ⟨rfl, fun i c d h => by simp at h⟩
  | succ n ih =>
    intro cs hlen hhex
    match cs, hlen, hhex with
    | c :: d :: rest, hlen, hhex =>
      have hc : isHexDigit c = true := hhex c (by simp)
      have hd : isHexDigit d = true := hhex d (by simp)
      have hr := ih rest (by simp at hlen; omega) (fun x hx => hhex x (by simp [hx]))
      rw [matchPairs_hex c d rest hc hd, List.map_cons, parseIntHex_pair]
      refine ⟨by rw [List.length_cons, hr.1], ?_⟩
      intro i c2 d2 h1 h2
      cases i with
      | zero =>
        simp at h1 h2
        subst h1; subst h2
        simp
      | succ j =>
        have e1 : 2 * (j + 1) = (2 * j) + 1 + 1 := by omega
        have e2 : 2 * (j + 1) + 1 = (2 * j + 1) + 1 + 1 := by omega
        rw [e1, List.getElem?_cons_succ, List.getElem?_cons_succ] at h1
        rw [e2, List.getElem?_cons_succ, List.getElem?_cons_succ] at h2
        rw [List.getElem?_cons_succ]
        exact hr.2 j c2 d2 h1 h2

theorem matchPairs_no_pair : ∀ cs : List Char,
    (∀ i c d, cs[i]? = some c → cs[i + 1]? = some d →
      ¬ (isHexDigit c = true ∧ isHexDigit d = true)) →
    matchPairs cs = [] := by
  intro cs
  induction cs with
  | nil => intro _; rfl
  | cons c tl ih =>
    intro h
    cases tl with
    | nil => rfl
    | cons d rest =>
      rw [matchPairs_skip c d rest (h 0 c d (by simp) (by simp))]
      exact ih (fun i x y hx hy => h (i + 1) x y (by simpa using hx) (by simpa using hy))

theorem hexToBuffer_encode (u : Bool) : ∀ bs : List Nat, (∀ b ∈ bs, b < 256) →
    hexToBuffer (hexEncode u bs) = bs := by
  intro bs
  induction bs with
  | nil => intro _; rfl
  | cons b tl ih =>
    intro h
    have hb : b < 256 := h b (by simp)
    have h1 : isHexDigit (hexDigit u (b / 16)) = true ∧ hexVal (hexDigit u (b / 16)) = b / 16 :=
      hexDigit_spec u ⟨b / 16, by omega⟩
    have h2 : isHexDigit (hexDigit u (b % 16)) = true ∧ hexVal (hexDigit u (b % 16)) = b % 16 :=
      hexDigit_spec u ⟨b % 16, by omega⟩
    have ht := ih (fun x hx => h x (by simp [hx]))
    rw [hexEncode, hexToBuffer_mk] at ht ⊢
    rw [List.flatMap_cons]
    show List.map _ (matchPairs (hexDigit u (b / 16) :: hexDigit u (b % 16) ::
      tl.flatMap (fun b => [hexDigit u (b / 16), hexDigit u (b % 16)]))) = _
    rw [matchPairs_hex _ _ _ h1.1 h2.1, List.map_cons, parseIntHex_pair, ht, h1.2, h2.2]
    congr 1
    omega

/-! ## The claims -/

/-- C1: for bytes `lo`, `hi`, `decodeInt16LE(lo, hi)` is the two's-complement reading of
the little-endian word `u = hi*256 + lo` (`u` below 32768, `u - 65536` otherwise), so it
lies in `[-32768, 32767]`; `decodeInt16LE(0x7F, 0x0B) = 2943`, which the temperature
decoding of sensor 1 at offsets 0-1 turns into 294.3, and `decodeInt16LE(0xFF, 0xFF) = -1`. -/
theorem C1_decodeInt16LE_twos_complement (lo hi : Nat) (hlo : lo < 256) (hhi : hi < 256) :
    decodeInt16LE (.num lo) (.num hi) =
        (if hi * 256 + lo < 32768 then (hi : Int) * 256 + lo else (hi : Int) * 256 + lo - 65536)
      ∧ -32768 ≤ decodeInt16LE (.num lo) (.num hi)
      ∧ decodeInt16LE (.num lo) (.num hi) ≤ 32767
      ∧ decodeInt16LE (.num 0x7F) (.num 0x0B) = 2943
      ∧ idx samplePayload 0 = .num 0x7F ∧ idx samplePayload 1 = .num 0x0B
      ∧ tempSensor1 samplePayload = 294.3
      ∧ decodeInt16LE (.num 0xFF) (.num 0xFF) = -1 := by
  have h := decodeInt16LE_bytes lo hi hlo hhi
  have ha : decodeInt16LE (.num 0x7F) (.num 0x0B) = 2943 :=
    decodeInt16LE_bytes 127 11 (by decide) (by decide)
  refine ⟨h, ?_, ?_, ha, rfl, rfl, ?_, decodeInt16LE_bytes 255 255 (by decide) (by decide)⟩
  · rw [h]; split <;> omega
  · rw [h]; split <;> omega
  · have hs : tempSensor1 samplePayload
        = ((decodeInt16LE (.num 0x7F) (.num 0x0B) : Int) : ℚ) / 10 := rfl
    rw [hs, ha]; norm_num

theorem C1_decodeInt16LE_twos_complement_witness :
    (128 < 256 ∧ 255 < 256) ∧
      decodeInt16LE (.num ((128 : Nat) : Int)) (.num ((255 : Nat) : Int)) =
        (if 255 * 256 + 128 < 32768 then ((255 : Nat) : Int) * 256 + ((128 : Nat) : Int)
          else ((255 : Nat) : Int) * 256 + ((128 : Nat) : Int) - 65536) :=
  ⟨by decide, (C1_decodeInt16LE_twos_complement 128 255 (by decide) (by decide)).1⟩

/-- C2: for bytes `lo`, `hi`, `decodeUInt16LE(lo, hi) = hi*256 + lo`, least-significant
byte first, a value in `[0, 65535]`. -/
theorem C2_decodeUInt16LE_value (lo hi : Nat) (hlo : lo < 256) (hhi : hi < 256) :
    decodeUInt16LE (.num lo) (.num hi) = (hi : Int) * 256 + lo
      ∧ 0 ≤ decodeUInt16LE (.num lo) (.num hi)
      ∧ decodeUInt16LE (.num lo) (.num hi) ≤ 65535 := by
  have h := decodeUInt16LE_bytes lo hi hlo hhi
  refine ⟨h, ?_, ?_⟩ <;> rw [h] <;> omega

theorem C2_decodeUInt16LE_value_witness :
    (127 < 256 ∧ 11 < 256) ∧
      decodeUInt16LE (.num ((127 : Nat) : Int)) (.num ((11 : Nat) : Int))
        = ((11 : Nat) : Int) * 256 + ((127 : Nat) : Int) :=
  ⟨by decide, (C2_decodeUInt16LE_value 127 11 (by decide) (by decide)).1⟩

/-- C3, the code at the failing input: `decodeUInt32LE(0, 0, 0, 128)` is `-2147483648`,
not the unsigned little-endian value `2147483648`, and so lies outside `[0, 2^32)`. -/
theorem C3_decodeUInt32LE_wraps :
    decodeUInt32LE (.num 0) (.num 0) (.num 0) (.num 128) = -2147483648
      ∧ decodeUInt32LE (.num 0) (.num 0) (.num 0) (.num 128)
          ≠ 0 + 256 * 0 + 65536 * 0 + 16777216 * 128
      ∧ ¬ (0 ≤ decodeUInt32LE (.num 0) (.num 0) (.num 0) (.num 128)) := by
  have h : decodeUInt32LE (.num 0) (.num 0) (.num 0) (.num 128) = -2147483648 :=
    decodeUInt32LE_bytes 0 0 0 128 (by decide) (by decide) (by decide) (by decide)
  rw [h]; decide

/-- C4: for bytes `b0..b5`, `decodeUInt48LE` returns the sum of `b_i * 256^i`, which lies
in `[0, 2^48)`, hence below `2^53`, and `Number(...)` of it, as used for `heatQuantity48`,
is the same integer. -/
theorem C4_decodeUInt48LE_value (b0 b1 b2 b3 b4 b5 : Nat) (h0 : b0 < 256) (h1 : b1 < 256)
    (h2 : b2 < 256) (h3 : b3 < 256) (h4 : b4 < 256) (h5 : b5 < 256) :
    ∃ v : Int,
      decodeUInt48LE (.num b0) (.num b1) (.num b2) (.num b3) (.num b4) (.num b5) = .ok v
      ∧ v = (b0 : Int) + b1 * 256 ^ 1 + b2 * 256 ^ 2 + b3 * 256 ^ 3 + b4 * 256 ^ 4 + b5 * 256 ^ 5
      ∧ 0 ≤ v ∧ v < 2 ^ 48 ∧ v < 2 ^ 53
      ∧ bigIntToNumber v = v := by
  refine ⟨_, decodeUInt48LE_bytes b0 b1 b2 b3 b4 b5 h0 h1 h2 h3 h4, ?_, ?_, ?_, ?_, ?_⟩
  · push_cast; ring
  · omega
  · norm_num; omega
  · norm_num; omega
  · exact bigIntToNumber_natCast _ (by omega)

theorem C4_decodeUInt48LE_value_witness :
    (0x7F < 256 ∧ 0x5F < 256 ∧ 0x14 < 256 ∧ 0 < 256 ∧ 0 < 256 ∧ 1 < 256) ∧
    ∃ v : Int,
      decodeUInt48LE (.num ((0x7F : Nat) : Int)) (.num ((0x5F : Nat) : Int))
        (.num ((0x14 : Nat) : Int)) (.num ((0 : Nat) : Int)) (.num ((0 : Nat) : Int))
        (.num ((1 : Nat) : Int)) = .ok v
      ∧ v = ((0x7F : Nat) : Int) + ((0x5F : Nat) : Int) * 256 ^ 1 + ((0x14 : Nat) : Int) * 256 ^ 2
          + ((0 : Nat) : Int) * 256 ^ 3 + ((0 : Nat) : Int) * 256 ^ 4 + ((1 : Nat) : Int) * 256 ^ 5
      ∧ 0 ≤ v ∧ v < 2 ^ 48 ∧ v < 2 ^ 53
      ∧ bigIntToNumber v = v :=
  ⟨by decide, C4_decodeUInt48LE_value 0x7F 0x5F 0x14 0 0 1 (by decide) (by decide) (by decide)
    (by decide) (by decide) (by decide)⟩

/-- C5 as stated fails: the sample payload has 24 bytes, the manual decoder completes on it
and reports the version as the number 0. -/
theorem C5_version_reported_zero_on_sample :
    samplePayload.length ≤ 24 ∧
      ∃ r, manualDecode samplePayload = .ok r ∧ r.versionRaw = 0 ∧ r.version = 0 := by
  obtain ⟨r, hr, hraw, hver, _, _⟩ := manualDecode_ok samplePayload (by decide)
  have h0 : versionRaw samplePayload = 0 := versionRaw_short samplePayload (by decide)
  refine ⟨by decide, r, hr, by rw [hraw, h0], ?_⟩
  rw [hver, version, h0]; norm_num

/-- C5 amended: for a payload of at most 24 bytes the version expression
`decodeUInt16LE(bytes[24], bytes[25]) / 100` is the number 0, the missing bytes being read as
0 by the bitwise operators; with at least 22 bytes the manual decoder completes and reports
that version 0. -/
theorem C5_version_zero_when_short (bytes : List Nat) (h24 : bytes.length ≤ 24) :
    idx bytes 24 = .undefined ∧ idx bytes 25 = .undefined
      ∧ versionRaw bytes = 0 ∧ version bytes = 0
      ∧ (22 ≤ bytes.length →
          ∃ r, manualDecode bytes = .ok r ∧ r.versionRaw = 0 ∧ r.version = 0) := by
  have h0 : versionRaw bytes = 0 := versionRaw_short bytes h24
  have hv : version bytes = 0 := by rw [version, h0]; norm_num
  refine ⟨idx_of_le bytes 24 h24, idx_of_le bytes 25 (by omega), h0, hv, ?_⟩
  intro h22
  obtain ⟨r, hr, hraw, hver, _, _⟩ := manualDecode_ok bytes h22
  exact ⟨r, hr, by rw [hraw, h0], by rw [hver, hv]⟩

theorem C5_version_zero_when_short_witness :
    [1, 2, 3].length ≤ 24 ∧ versionRaw [1, 2, 3] = 0 ∧ version [1, 2, 3] = 0 :=
  ⟨by decide, (C5_version_zero_when_short [1, 2, 3] (by decide)).2.2.1,
    (C5_version_zero_when_short [1, 2, 3] (by decide)).2.2.2.1⟩

/-- C6: round trip of 16-bit signed fields: for `-32768 <= v <= 32767`, with
`w = v mod 65536`, `lo = w mod 256`, `hi = w div 256`, `decodeInt16LE(lo, hi) = v`, so the
scaled value `v/10` is reproduced exactly; and `decodeInt16LE` is injective on byte pairs. -/
theorem C6_decodeInt16LE_round_trip (v : Int) (hlow : -32768 ≤ v) (hhigh : v ≤ 32767) :
    decodeInt16LE (.num (v % 65536 % 256)) (.num (v % 65536 / 256)) = v
      ∧ (decodeInt16LE (.num (v % 65536 % 256)) (.num (v % 65536 / 256)) : ℚ) / 10 = (v : ℚ) / 10
      ∧ (∀ rest : List Nat,
          tempSensor1 ((v % 65536 % 256).toNat :: (v % 65536 / 256).toNat :: rest) = (v : ℚ) / 10)
      ∧ (∀ lo hi lo2 hi2 : Nat, lo < 256 → hi < 256 → lo2 < 256 → hi2 < 256 →
          decodeInt16LE (.num lo) (.num hi) = decodeInt16LE (.num lo2) (.num hi2) →
          lo = lo2 ∧ hi = hi2) := by
  have hl : v % 65536 % 256 = (((v % 65536 % 256).toNat : Nat) : Int) := by omega
  have hh : v % 65536 / 256 = (((v % 65536 / 256).toNat : Nat) : Int) := by omega
  have hd : decodeInt16LE (.num (((v % 65536 % 256).toNat : Nat) : Int))
      (.num (((v % 65536 / 256).toNat : Nat) : Int)) = v := by
    rw [decodeInt16LE_bytes _ _ (by omega) (by omega)]
    split <;> omega
  have hv : decodeInt16LE (.num (v % 65536 % 256)) (.num (v % 65536 / 256)) = v := by
    rw [hl, hh]; exact hd
  refine ⟨hv, congrArg (fun x : Int => (x : ℚ) / 10) hv, ?_, ?_⟩
  · intro rest
    rw [tempSensor1_cons]
    exact congrArg (fun x : Int => (x : ℚ) / 10) hd
  · intro lo hi lo2 hi2 h1 h2 h3 h4 he
    rw [decodeInt16LE_bytes lo hi h1 h2, decodeInt16LE_bytes lo2 hi2 h3 h4] at he
    split at he <;> split at he <;> omega

theorem C6_decodeInt16LE_round_trip_witness :
    (-32768 ≤ (-1234 : Int) ∧ (-1234 : Int) ≤ 32767) ∧
      decodeInt16LE (.num ((-1234 : Int) % 65536 % 256)) (.num ((-1234 : Int) % 65536 / 256))
        = -1234 :=
  ⟨by decide, (C6_decodeInt16LE_round_trip (-1234) (by decide) (by decide)).1⟩

/-- C7: for a byte and any mask, `checkBit(byte, mask)` is 1 when byte and mask share a set
bit and 0 otherwise; for a single-bit mask `2^k`, `k <= 7`, it is bit `k` of the byte, that is
`(byte AND 2^k)` shifted right by `k`; so the six status flags with masks `0x01..0x20`
satisfy `byte mod 64 = sum over k < 6 of flag_k * 2^k`. -/
theorem C7_checkBit_flags (byte : Nat) (mask : Int) (k : Nat) (hb : byte < 256) (hk : k ≤ 7) :
    ((∃ i, byte.testBit i = true ∧ mask.testBit i = true) → checkBit (.num byte) (.num mask) = 1)
      ∧ ((¬ ∃ i, byte.testBit i = true ∧ mask.testBit i = true) →
          checkBit (.num byte) (.num mask) = 0)
      ∧ checkBit (.num byte) (.num ((2 ^ k : Nat) : Int)) = (((byte &&& 2 ^ k) >>> k : Nat) : Int)
      ∧ checkBit (.num byte) (.num ((2 ^ k : Nat) : Int)) = (if byte.testBit k then 1 else 0)
      ∧ ((byte % 64 : Nat) : Int) =
          checkBit (.num byte) (.num 0x01) * 1 + checkBit (.num byte) (.num 0x02) * 2
          + checkBit (.num byte) (.num 0x04) * 4 + checkBit (.num byte) (.num 0x08) * 8
          + checkBit (.num byte) (.num 0x10) * 16 + checkBit (.num byte) (.num 0x20) * 32 := by
  have hsh := checkBit_shared byte mask hb
  have hkk := checkBit_two_pow byte k hb (by omega)
  have hp : 0 < 2 ^ k := Nat.two_pow_pos k
  refine ⟨hsh.1, hsh.2, ?_, ?_, ?_⟩
  · rw [hkk, Nat.and_two_pow, Nat.shiftRight_eq_div_pow, Nat.mul_div_cancel _ hp,
      Nat.toNat_testBit]
  · rw [hkk, ← Nat.toNat_testBit]
    cases byte.testBit k <;> rfl
  · have e0 := checkBit_two_pow byte 0 hb (by decide)
    have e1 := checkBit_two_pow byte 1 hb (by decide)
    have e2 := checkBit_two_pow byte 2 hb (by decide)
    have e3 := checkBit_two_pow byte 3 hb (by decide)
    have e4 := checkBit_two_pow byte 4 hb (by decide)
    have e5 := checkBit_two_pow byte 5 hb (by decide)
    norm_num at e0 e1 e2 e3 e4 e5
    rw [e0, e1, e2, e3, e4, e5]
    omega

theorem C7_checkBit_flags_witness :
    (0x46 < 256 ∧ 2 ≤ 7) ∧
      checkBit (.num ((0x46 : Nat) : Int)) (.num ((2 ^ 2 : Nat) : Int))
        = (if (0x46 : Nat).testBit 2 then 1 else 0) :=
  ⟨by decide, (C7_checkBit_flags 0x46 4 2 (by decide) (by decide)).2.2.2.1⟩

/-- C8: for a string of exactly `2n` hexadecimal digits, upper or lower case, `hexToBuffer`
returns `n` bytes, byte `i` being `16 * value(digit 2i) + value(digit 2i+1)`; so it inverts
the two-digit hex encoding of any byte sequence, and a string with no pair of adjacent
hexadecimal digits yields the empty buffer. -/
theorem C8_hexToBuffer_pairs (hex : String) (n : Nat) (hlen : hex.length = 2 * n)
    (hhex : ∀ c ∈ hex.data, isHexDigit c = true) :
    (hexToBuffer hex).length = n
      ∧ (∀ i c d, hex.data[2 * i]? = some c → hex.data[2 * i + 1]? = some d →
          (hexToBuffer hex)[i]? = some (16 * hexVal c + hexVal d))
      ∧ (∀ (u : Bool) (v : Nat), v < 16 →
          isHexDigit (hexDigit u v) = true ∧ hexVal (hexDigit u v) = v)
      ∧ (∀ (u : Bool) (bs : List Nat), (∀ b ∈ bs, b < 256) → hexToBuffer (hexEncode u bs) = bs)
      ∧ (∀ s : String,
          (∀ i c d, s.data[i]? = some c → s.data[i + 1]? = some d →
            ¬ (isHexDigit c = true ∧ isHexDigit d = true)) →
          hexToBuffer s = []) := by
  have h := hexToBuffer_digits n hex.data hlen hhex
  refine ⟨h.1, h.2, fun u v hv => hexDigit_spec u ⟨v, hv⟩, hexToBuffer_encode, ?_⟩
  intro s hs
  show (matchPairs s.data).map _ = []
  rw [matchPairs_no_pair s.data hs]; rfl

theorem C8_hexToBuffer_pairs_witness :
    ("7f0B".length = 2 * 2 ∧ ∀ c ∈ "7f0B".data, isHexDigit c = true) ∧
      (hexToBuffer "7f0B").length = 2 ∧ hexToBuffer "7f0B" = [127, 11] :=
  ⟨⟨by decide, by decide⟩, (C8_hexToBuffer_pairs "7f0B" 2 (by decide) (by decide)).1, by decide⟩

/-- C9: for every payload, of any length and contents, the heat quantity chosen by the
selection logic is the constant 255000000, whatever the bytes 16..21 are, and the warning
guarded by `heatQuantity !== 255000000` is never reached. -/
theorem C9_heatQuantity_constant (bytes : List Nat) :
    heatQuantity bytes = 255000000
      ∧ warningReached bytes = false
      ∧ (∀ other : List Nat, heatQuantity other = heatQuantity bytes)
      ∧ (∀ r, manualDecode bytes = .ok r → r.heatQuantity = 255000000 ∧ r.warning = false) := by
  have hq := heatQuantity_const bytes
  have hw : warningReached bytes = false := by
    unfold warningReached; rw [hq]; rfl
  refine ⟨hq, hw, fun other => by rw [hq, heatQuantity_const other], ?_⟩
  intro r hr
  by_cases h22 : 22 ≤ bytes.length
  · obtain ⟨r2, hr2, _, _, hh, hwr⟩ := manualDecode_ok bytes h22
    rw [hr] at hr2
    cases hr2
    exact ⟨by rw [hh, hq], by rw [hwr, hw]⟩
  · rw [manualDecode_error bytes (by omega)] at hr
    cases hr

theorem C9_heatQuantity_constant_witness :
    heatQuantity samplePayload = 255000000 ∧ warningReached samplePayload = false :=
  ⟨(C9_heatQuantity_constant samplePayload).1, (C9_heatQuantity_constant samplePayload).2.1⟩

/-- C10: for bytes `b0..b3`, `decodeUInt32LE` is the signed 32-bit reading of
`U = b0 + 256*b1 + 65536*b2 + 16777216*b3`: `U` when `b3 < 128`, `U - 2^32` otherwise; it is
congruent modulo `2^32` to `decodeUInt48LE(b0, b1, b2, b3, 0, 0)` and equal to it exactly
when `b3 < 128`. -/
theorem C10_decodeUInt32LE_signed_reading (b0 b1 b2 b3 : Nat) (h0 : b0 < 256) (h1 : b1 < 256)
    (h2 : b2 < 256) (h3 : b3 < 256) :
    decodeUInt32LE (.num b0) (.num b1) (.num b2) (.num b3) =
        (if b3 < 128 then (b0 : Int) + 256 * b1 + 65536 * b2 + 16777216 * b3
          else (b0 : Int) + 256 * b1 + 65536 * b2 + 16777216 * b3 - 2 ^ 32)
      ∧ ∃ v : Int,
          decodeUInt48LE (.num b0) (.num b1) (.num b2) (.num b3) (.num 0) (.num 0) = .ok v
          ∧ decodeUInt32LE (.num b0) (.num b1) (.num b2) (.num b3) % 2 ^ 32 = v % 2 ^ 32
          ∧ (decodeUInt32LE (.num b0) (.num b1) (.num b2) (.num b3) = v ↔ b3 < 128) := by
  have h := decodeUInt32LE_bytes b0 b1 b2 b3 h0 h1 h2 h3
  have h48 := decodeUInt48LE_bytes b0 b1 b2 b3 0 0 h0 h1 h2 h3 (by decide)
  refine ⟨by rw [h]; norm_num, _, h48, ?_, ?_⟩
  · rw [h]; split <;> omega
  · rw [h]; split <;> omega

theorem C10_decodeUInt32LE_signed_reading_witness :
    (0 < 256 ∧ 8 < 256 ∧ 47 < 256 ∧ 200 < 256) ∧
      decodeUInt32LE (.num ((0 : Nat) : Int)) (.num ((8 : Nat) : Int)) (.num ((47 : Nat) : Int))
          (.num ((200 : Nat) : Int)) =
        (if 200 < 128 then ((0 : Nat) : Int) + 256 * ((8 : Nat) : Int) + 65536 * ((47 : Nat) : Int)
            + 16777216 * ((200 : Nat) : Int)
          else ((0 : Nat) : Int) + 256 * ((8 : Nat) : Int) + 65536 * ((47 : Nat) : Int)
            + 16777216 * ((200 : Nat) : Int) - 2 ^ 32) :=
  ⟨by decide, (C10_decodeUInt32LE_signed_reading 0 8 47 200 (by decide) (by decide) (by decide)
    (by decide)).1⟩

end VBus
